import Mathlib

/-!
Verification of the ECS (Entity-Component-System) core of the
webgl2-engine repository, shallowly embedded in Lean.

The embedding covers:
  * the JavaScript `Map` and `Set` semantics the code relies on,
    modelled as association lists / lists (insertion order, `set`
    replaces in place, `delete` removes the unique entry);
  * `ComponentContainer` (`add` / `get` / `has` / `hasAll` / `remove` /
    `getAll`);
  * the `World` of `src/engine/ECS.ts` (entity store, per-system result
    sets, deferred destruction, `tick`), with system behaviours
    represented as sequences of public API calls;
  * the live-query `World` variant (the `EntityQuery` design) needed for
    the `removeSystem` / `getAll` claims;
  * the `RectangleMover.update` bounce step of `src/game/Rectangles.ts`,
    over exact rationals.
-/

set_option maxHeartbeats 1000000
set_option linter.unusedSectionVars false
set_option linter.unnecessarySimpa false
set_option linter.unusedVariables false

namespace ECSProof

/-! ## JavaScript Map semantics over association lists -/

section JsMap

variable {α : Type} {β : Type} [DecidableEq α]

/-- Lookup in a JS `Map`: first (and, for real JS states, unique) entry. -/
def jget : List (α × β) → α → Option β
  | [], _ => none
  | (k, v) :: rest, k2 => if k = k2 then some v else jget rest k2

/-- `Map.set`: replace in place if the key exists, else append. -/
def jset : List (α × β) → α → β → List (α × β)
  | [], k2, v2 => [(k2, v2)]
  | (k, v) :: rest, k2, v2 =>
      if k = k2 then (k2, v2) :: rest else (k, v) :: jset rest k2 v2

/-- `Map.delete`: remove the (first) entry with the given key. -/
def jdelete : List (α × β) → α → List (α × β)
  | [], _ => []
  | (k, v) :: rest, k2 => if k = k2 then rest else (k, v) :: jdelete rest k2

/-- The key list of a map, in insertion order. -/
def jkeys (m : List (α × β)) : List α := m.map Prod.fst

/-- Update the value stored at a key, if present (models mutating the
value object held in the map, as JS `map.get(k)` followed by a mutation
of the returned object does). -/
def jupdate (m : List (α × β)) (k : α) (f : β → β) : List (α × β) :=
  m.map (fun p => if p.1 = k then (p.1, f p.2) else p)

@[simp] theorem jget_nil (k : α) : jget ([] : List (α × β)) k = none := rfl

@[simp] theorem jget_cons (k1 k2 : α) (v1 : β) (rest : List (α × β)) :
    jget ((k1, v1) :: rest) k2 = if k1 = k2 then some v1 else jget rest k2 := rfl

@[simp] theorem jset_nil (k : α) (v : β) :
    jset ([] : List (α × β)) k v = [(k, v)] := rfl

@[simp] theorem jset_cons (k1 k2 : α) (v1 v2 : β) (rest : List (α × β)) :
    jset ((k1, v1) :: rest) k2 v2 =
      if k1 = k2 then (k2, v2) :: rest else (k1, v1) :: jset rest k2 v2 := rfl

@[simp] theorem jdelete_nil (k : α) : jdelete ([] : List (α × β)) k = [] := rfl

@[simp] theorem jdelete_cons (k1 k2 : α) (v1 : β) (rest : List (α × β)) :
    jdelete ((k1, v1) :: rest) k2 =
      if k1 = k2 then rest else (k1, v1) :: jdelete rest k2 := rfl

@[simp] theorem jkeys_nil : jkeys ([] : List (α × β)) = [] := rfl

@[simp] theorem jkeys_cons (p : α × β) (m : List (α × β)) :
    jkeys (p :: m) = p.1 :: jkeys m := rfl

@[simp] theorem jupdate_nil (k : α) (f : β → β) :
    jupdate ([] : List (α × β)) k f = [] := rfl

@[simp] theorem jupdate_cons (k1 k2 : α) (v1 : β) (f : β → β)
    (rest : List (α × β)) :
    jupdate ((k1, v1) :: rest) k2 f =
      (if k1 = k2 then (k1, f v1) else (k1, v1)) :: jupdate rest k2 f := by
  by_cases h : k1 = k2 <;> simp [jupdate, h]

theorem jget_jset_self (m : List (α × β)) (k : α) (v : β) :
    jget (jset m k v) k = some v := by
  induction m with
  | nil => simp
  | cons p rest ih =>
      obtain ⟨k1, v1⟩ := p
      by_cases h : k1 = k <;> simp [h, ih]

theorem jget_jset_ne (m : List (α × β)) (k k2 : α) (v : β) (h : k2 ≠ k) :
    jget (jset m k v) k2 = jget m k2 := by
  induction m with
  | nil => simp [Ne.symm h]
  | cons p rest ih =>
      obtain ⟨k1, v1⟩ := p
      by_cases h1 : k1 = k
      · subst h1
        simp [Ne.symm h]
      · by_cases h2 : k1 = k2 <;> simp [h1, h2, h, ih]

theorem jkeys_jset (m : List (α × β)) (k : α) (v : β) :
    jkeys (jset m k v) = if k ∈ jkeys m then jkeys m else jkeys m ++ [k] := by
  induction m with
  | nil => simp
  | cons p rest ih =>
      obtain ⟨k1, v1⟩ := p
      by_cases h : k1 = k
      · subst h
        simp
      · have hne : ¬k = k1 := Ne.symm h
        by_cases hmem : k ∈ jkeys rest <;> simp [h, hne, hmem, ih]

theorem nodup_jkeys_jset (m : List (α × β)) (k : α) (v : β)
    (h : (jkeys m).Nodup) : (jkeys (jset m k v)).Nodup := by
  rw [jkeys_jset]
  by_cases hmem : k ∈ jkeys m
  · rw [if_pos hmem]
    exact h
  · simpa [hmem] using List.Nodup.append h (List.nodup_singleton k)
      (by simpa using fun hx => hmem hx)

theorem jkeys_jdelete_sublist (m : List (α × β)) (k : α) :
    (jkeys (jdelete m k)).Sublist (jkeys m) := by
  induction m with
  | nil => simp
  | cons p rest ih =>
      obtain ⟨k1, v1⟩ := p
      by_cases h : k1 = k
      · simpa [h] using List.sublist_cons_self _ _
      · simpa [h] using ih.cons₂ k1

theorem nodup_jkeys_jdelete (m : List (α × β)) (k : α)
    (h : (jkeys m).Nodup) : (jkeys (jdelete m k)).Nodup :=
  (jkeys_jdelete_sublist m k).nodup h

theorem jget_eq_none_of_not_mem (m : List (α × β)) (k : α)
    (h : k ∉ jkeys m) : jget m k = none := by
  induction m with
  | nil => rfl
  | cons p rest ih =>
      obtain ⟨k1, v1⟩ := p
      simp only [jkeys_cons, List.mem_cons] at h
      push_neg at h
      simp [Ne.symm h.1, ih h.2]

theorem mem_jkeys_of_jget (m : List (α × β)) (k : α) (v : β)
    (h : jget m k = some v) : k ∈ jkeys m := by
  by_contra hmem
  rw [jget_eq_none_of_not_mem m k hmem] at h
  exact Option.noConfusion h

theorem jget_mem (m : List (α × β)) (k : α) (v : β)
    (h : jget m k = some v) : (k, v) ∈ m := by
  induction m with
  | nil => exact Option.noConfusion h
  | cons p rest ih =>
      obtain ⟨k1, v1⟩ := p
      by_cases hk : k1 = k
      · subst hk
        rw [jget_cons, if_pos rfl] at h
        obtain rfl := Option.some.inj h
        exact List.mem_cons_self _ _
      · rw [jget_cons, if_neg hk] at h
        exact List.mem_cons_of_mem _ (ih h)

theorem jget_isSome_of_mem_jkeys (m : List (α × β)) (k : α)
    (h : k ∈ jkeys m) : (jget m k).isSome := by
  induction m with
  | nil => exact absurd h (List.not_mem_nil k)
  | cons p rest ih =>
      obtain ⟨k1, v1⟩ := p
      by_cases hk : k1 = k
      · simp [hk]
      · rw [jkeys_cons, List.mem_cons] at h
        rcases h with rfl | h
        · exact absurd rfl hk
        · simpa [hk] using ih h

theorem not_mem_jkeys_of_jget_none (m : List (α × β)) (k : α)
    (h : jget m k = none) : k ∉ jkeys m := by
  intro hmem
  have := jget_isSome_of_mem_jkeys m k hmem
  rw [h] at this
  exact Bool.noConfusion this

theorem jget_jdelete_self (m : List (α × β)) (k : α)
    (h : (jkeys m).Nodup) : jget (jdelete m k) k = none := by
  induction m with
  | nil => rfl
  | cons p rest ih =>
      obtain ⟨k1, v1⟩ := p
      simp only [jkeys_cons, List.nodup_cons] at h
      by_cases hk : k1 = k
      · subst hk
        simpa using jget_eq_none_of_not_mem rest k1 h.1
      · simp [hk, ih h.2]

theorem jget_jdelete_none (m : List (α × β)) (k k2 : α)
    (h : jget m k2 = none) : jget (jdelete m k) k2 = none := by
  induction m with
  | nil => rfl
  | cons p rest ih =>
      obtain ⟨k1, v1⟩ := p
      by_cases hk2 : k1 = k2
      · simp [hk2] at h
      · by_cases hk : k1 = k <;> simp_all [hk, hk2]

theorem jdelete_of_not_mem (m : List (α × β)) (k : α)
    (h : k ∉ jkeys m) : jdelete m k = m := by
  induction m with
  | nil => rfl
  | cons p rest ih =>
      obtain ⟨k1, v1⟩ := p
      simp only [jkeys_cons, List.mem_cons] at h
      push_neg at h
      simp [Ne.symm h.1, ih h.2]

@[simp] theorem jkeys_jupdate (m : List (α × β)) (k : α) (f : β → β) :
    jkeys (jupdate m k f) = jkeys m := by
  induction m with
  | nil => rfl
  | cons p rest ih =>
      obtain ⟨k1, v1⟩ := p
      by_cases h : k1 = k <;> simp [h, ih]

theorem jget_jupdate_self (m : List (α × β)) (k : α) (f : β → β) :
    jget (jupdate m k f) k = (jget m k).map f := by
  induction m with
  | nil => rfl
  | cons p rest ih =>
      obtain ⟨k1, v1⟩ := p
      by_cases h : k1 = k
      · subst h
        simp
      · simp [h, ih]

theorem jget_jupdate_ne (m : List (α × β)) (k k2 : α) (f : β → β)
    (h : k2 ≠ k) : jget (jupdate m k f) k2 = jget m k2 := by
  induction m with
  | nil => rfl
  | cons p rest ih =>
      obtain ⟨k1, v1⟩ := p
      by_cases h1 : k1 = k
      · subst h1
        simp [Ne.symm h, ih]
      · by_cases h2 : k1 = k2 <;> simp [h1, h2, h, ih]

theorem jupdate_jupdate_same (m : List (α × β)) (k : α) (f g : β → β) :
    jupdate (jupdate m k f) k g = jupdate m k (fun x => g (f x)) := by
  induction m with
  | nil => rfl
  | cons p rest ih =>
      obtain ⟨k1, v1⟩ := p
      by_cases h : k1 = k <;> simp [h, ih]

theorem jupdate_id (m : List (α × β)) (k : α) :
    jupdate m k (fun x => x) = m := by
  induction m with
  | nil => rfl
  | cons p rest ih =>
      obtain ⟨k1, v1⟩ := p
      by_cases h : k1 = k <;> simp [h, ih]

end JsMap

/-! ## JavaScript Set semantics over lists -/

section JsSet

variable {α : Type} [DecidableEq α]

/-- `Set.add`: append if not already present. -/
def sAdd (s : List α) (x : α) : List α := if x ∈ s then s else s ++ [x]

/-- `Set.delete`: remove the (unique) occurrence. -/
def sDel : List α → α → List α
  | [], _ => []
  | y :: rest, x => if y = x then sDel rest x else y :: sDel rest x

@[simp] theorem sDel_nil (x : α) : sDel ([] : List α) x = [] := rfl

@[simp] theorem sDel_cons (y x : α) (rest : List α) :
    sDel (y :: rest) x = if y = x then sDel rest x else y :: sDel rest x := rfl

@[simp] theorem mem_sAdd (s : List α) (x y : α) :
    y ∈ sAdd s x ↔ y ∈ s ∨ y = x := by
  by_cases h : x ∈ s
  · simp only [sAdd, if_pos h]
    constructor
    · exact Or.inl
    · rintro (hy | rfl)
      · exact hy
      · exact h
  · simp [sAdd, if_neg h]

@[simp] theorem mem_sDel (s : List α) (x y : α) :
    y ∈ sDel s x ↔ y ∈ s ∧ y ≠ x := by
  induction s with
  | nil => simp
  | cons z rest ih =>
      by_cases h : z = x
      · subst h
        rw [sDel_cons, if_pos rfl, ih]
        simp only [List.mem_cons]
        constructor
        · rintro ⟨hy, hne⟩
          exact ⟨Or.inr hy, hne⟩
        · rintro ⟨hy | hy, hne⟩
          · exact absurd hy hne
          · exact ⟨hy, hne⟩
      · rw [sDel_cons, if_neg h]
        simp only [List.mem_cons, ih]
        constructor
        · rintro (rfl | ⟨hy, hne⟩)
          · exact ⟨Or.inl rfl, h⟩
          · exact ⟨Or.inr hy, hne⟩
        · rintro ⟨hy | hy, hne⟩
          · exact Or.inl hy
          · exact Or.inr ⟨hy, hne⟩

theorem sDel_of_not_mem (s : List α) (x : α) (h : x ∉ s) : sDel s x = s := by
  induction s with
  | nil => rfl
  | cons z rest ih =>
      simp only [List.mem_cons] at h
      push_neg at h
      simp [Ne.symm h.1, ih h.2]

end JsSet

section JsMapExtra

variable {α : Type} {β : Type} [DecidableEq α]

theorem jdelete_sublist (m : List (α × β)) (k : α) :
    (jdelete m k).Sublist m := by
  induction m with
  | nil => simp
  | cons p rest ih =>
      obtain ⟨k1, v1⟩ := p
      by_cases h : k1 = k
      · simpa [h] using List.sublist_cons_self _ _
      · simpa [h] using ih.cons₂ (k1, v1)

theorem jkeys_map_snd (m : List (α × β)) (g : α × β → β) :
    jkeys (m.map (fun p => (p.1, g p))) = jkeys m := by
  unfold jkeys
  rw [List.map_map]
  apply List.map_congr_left
  intro p _
  rfl

theorem mem_jset_iff (m : List (α × β)) (k : α) (v : β) (p : α × β)
    (hnd : (jkeys m).Nodup) :
    p ∈ jset m k v ↔ p = (k, v) ∨ (p ∈ m ∧ p.1 ≠ k) := by
  induction m with
  | nil => simp
  | cons q rest ih =>
      obtain ⟨k1, v1⟩ := q
      simp only [jkeys_cons, List.nodup_cons] at hnd
      by_cases h : k1 = k
      · subst h
        rw [jset_cons, if_pos rfl]
        simp only [List.mem_cons]
        constructor
        · rintro (rfl | hp)
          · exact Or.inl rfl
          · refine Or.inr ⟨Or.inr hp, ?_⟩
            intro hk
            exact hnd.1 (hk ▸ List.mem_map_of_mem Prod.fst hp)
        · rintro (rfl | ⟨rfl | hp, hne⟩)
          · exact Or.inl rfl
          · exact absurd rfl hne
          · exact Or.inr hp
      · rw [jset_cons, if_neg h]
        simp only [List.mem_cons, ih hnd.2]
        constructor
        · rintro (rfl | rfl | ⟨hp, hne⟩)
          · exact Or.inr ⟨Or.inl rfl, h⟩
          · exact Or.inl rfl
          · exact Or.inr ⟨Or.inr hp, hne⟩
        · rintro (rfl | ⟨rfl | hp, hne⟩)
          · exact Or.inr (Or.inl rfl)
          · exact Or.inl rfl
          · exact Or.inr (Or.inr ⟨hp, hne⟩)

end JsMapExtra

/-! ## Components and the ComponentContainer

A `Component` in the source is an object whose class (`component.constructor`)
serves as the key under which it is stored.  We model the class identity by a
natural-number type tag `ctorTag` and the instance identity by a payload `val`
(two instances of the same component class differ in `val`). -/

structure Component where
  ctorTag : Nat
  val : Nat
deriving DecidableEq, Repr

/-- A `ComponentContainer` is a JS `Map` from component class to component
instance (`private map = new Map<Function, Component>()`). -/
def CContainer : Type := List (Nat × Component)

instance : DecidableEq CContainer := by
  unfold CContainer
  infer_instance

namespace CContainer

/-- The empty container (`new ComponentContainer()`). -/
def empty : CContainer := []

/-- `add(component)`: `this.map.set(component.constructor, component)`. -/
def add (cc : CContainer) (c : Component) : CContainer :=
  jset cc c.ctorTag c

/-- `get(componentClass)`: `this.map.get(componentClass)`; the source casts
away a possible `undefined`, which we keep as `Option`. -/
def get (cc : CContainer) (t : Nat) : Option Component :=
  jget cc t

/-- `has(componentClass)`: `this.map.has(componentClass)`. -/
def has (cc : CContainer) (t : Nat) : Bool :=
  (jget cc t).isSome

/-- `hasAll(componentClasses)`: loops over the classes and returns `false` on
the first one the map lacks. -/
def hasAll (cc : CContainer) (ts : List Nat) : Bool :=
  ts.all (fun t => has cc t)

/-- `remove(componentClass)`: `this.map.delete(componentClass)`, which returns
whether an entry was removed. -/
def remove (cc : CContainer) (t : Nat) : CContainer × Bool :=
  (jdelete cc t, (jget cc t).isSome)

/-- `getAll(componentClasses)` (live-query variant): collects the instance for
each class in input order, returning `null` (`none`) as soon as one is
absent.  Component instances are JS objects, hence never falsy, so the
source's `if (!inst)` test is exactly the absence test. -/
def getAll (cc : CContainer) (ts : List Nat) : Option (List Component) :=
  match ts with
  | [] => some []
  | t :: rest =>
      match jget cc t with
      | none => none
      | some c =>
          match getAll cc rest with
          | none => none
          | some l => some (c :: l)

@[simp] theorem getAll_nil (cc : CContainer) : getAll cc [] = some [] := rfl

theorem hasAll_iff (cc : CContainer) (ts : List Nat) :
    hasAll cc ts = true ↔ ∀ t ∈ ts, (jget cc t).isSome := by
  simp [hasAll, has, List.all_eq_true]

theorem get_add_self (cc : CContainer) (c : Component) :
    get (add cc c) c.ctorTag = some c :=
  jget_jset_self cc c.ctorTag c

theorem get_add_ne (cc : CContainer) (c : Component) (t : Nat)
    (h : t ≠ c.ctorTag) : get (add cc c) t = get cc t :=
  jget_jset_ne cc c.ctorTag t c h

theorem nodup_jkeys_add (cc : CContainer) (c : Component)
    (h : (jkeys cc).Nodup) : (jkeys (add cc c)).Nodup :=
  nodup_jkeys_jset cc c.ctorTag c h

/-- After an `add`, the key of the added component occurs exactly once,
provided the container was a well-formed map (distinct keys) before. -/
theorem count_jkeys_add (cc : CContainer) (c : Component)
    (h : (jkeys cc).Nodup) :
    (jkeys (add cc c)).count c.ctorTag = 1 := by
  have hnd := nodup_jkeys_add cc c h
  have hmem : c.ctorTag ∈ jkeys (add cc c) :=
    mem_jkeys_of_jget _ _ _ (get_add_self cc c)
  exact List.count_eq_one_of_mem hnd hmem

end CContainer

/-! ## The main `World` (src/engine/ECS.ts)

A `System` declares an immutable `componentsRequired : Set<Function>`; we
model the set as its insertion-order list of type tags, and give each system
object an identity `sid` (distinct objects have distinct `sid`s).  The world
keys its `systems` map by the system object. -/

structure System where
  sid : Nat
  componentsRequired : List Nat
deriving DecidableEq, Repr

structure World where
  entities : List (Nat × CContainer)
  systems : List (System × List Nat)
  nextEntityID : Nat
  entitiesToDestroy : List Nat
deriving DecidableEq

namespace World

/-- `new World(...)`: all stores start empty. -/
def init : World :=
  { entities := [], systems := [], nextEntityID := 0, entitiesToDestroy := [] }

/-- `addEntity()`: allocate the next id, give it an empty container. -/
def addEntity (w : World) : Nat × World :=
  (w.nextEntityID,
    { w with
        entities := jset w.entities w.nextEntityID CContainer.empty,
        nextEntityID := w.nextEntityID + 1 })

/-- `removeEntity(entity)`: only pushes onto the pending-destruction list. -/
def removeEntity (e : Nat) (w : World) : World :=
  { w with entitiesToDestroy := w.entitiesToDestroy ++ [e] }

/-- `getComponents(entity)`. -/
def getComponents (w : World) (e : Nat) : Option CContainer :=
  jget w.entities e

/-- The truthiness of `this.entities.get(entity)?.hasAll(need)` inside
`checkEntitySystem`: `undefined` (absent entity) is falsy. -/
def entityMatches (ents : List (Nat × CContainer)) (e : Nat) (s : System) : Bool :=
  match jget ents e with
  | some cc => CContainer.hasAll cc s.componentsRequired
  | none => false

/-- `checkEntitySystem(entity, system)`: add the entity to (or drop it from)
the system's result set, according to whether its container holds all the
required classes. -/
def checkEntitySystem (e : Nat) (s : System) (w : World) : World :=
  if entityMatches w.entities e s then
    { w with systems := jupdate w.systems s (fun es => sAdd es e) }
  else
    { w with systems := jupdate w.systems s (fun es => sDel es e) }

/-- The loop of `checkEntity` over a list of systems. -/
def checkList (e : Nat) (ks : List System) (w : World) : World :=
  ks.foldl (fun w2 s => checkEntitySystem e s w2) w

/-- `checkEntity(entity)`: re-evaluate every registered system against the
entity.  `checkEntitySystem` never changes the key set of `systems`, so the
iteration is over the keys present at entry. -/
def checkEntity (e : Nat) (w : World) : World :=
  checkList e (jkeys w.systems) w

/-- `addComponent(entity, component)`: mutate the container if the entity
exists (`?.` optional chaining), then `checkEntity`. -/
def addComponent (e : Nat) (c : Component) (w : World) : World :=
  let w1 :=
    match jget w.entities e with
    | some cc => { w with entities := jset w.entities e (CContainer.add cc c) }
    | none => w
  checkEntity e w1

/-- `removeComponent(entity, componentClass)`: delete from the container if
the entity exists (`removed = ...?.remove(...) || false`), `checkEntity`,
and return whether something was removed. -/
def removeComponent (e : Nat) (t : Nat) (w : World) : World × Bool :=
  match jget w.entities e with
  | some cc =>
      (checkEntity e
        { w with entities := jset w.entities e (CContainer.remove cc t).1 },
       (CContainer.remove cc t).2)
  | none => (checkEntity e w, false)

/-- The seeding loop of `addSystem` over the existing entity ids. -/
def seedList (s : System) (ks : List Nat) (w : World) : World :=
  ks.foldl (fun w2 e => checkEntitySystem e s w2) w

/-- `addSystem(system)`: refuse systems with an empty required set
(`console.warn` and return), otherwise install an empty result set and
evaluate the system against every existing entity. -/
def addSystem (s : System) (w : World) : World :=
  if s.componentsRequired = [] then w
  else
    let w1 := { w with systems := jset w.systems s [] }
    seedList s (jkeys w1.entities) w1

/-- The warning text of `addSystem`'s `console.warn` (the source interpolates
the system object into the message; the constant text is what matters). -/
def emptyComponentsWarning : String :=
  "System not added, components list is empty."

/-- `addSystem` together with its only diagnostic channel: the list of
console warnings it prints.  The method itself returns `void` and, on
refusal, leaves the world untouched. -/
def addSystemLogged (s : System) (w : World) : World × List String :=
  (addSystem s w,
   if s.componentsRequired = [] then [emptyComponentsWarning] else [])

/-- `removeSystem(system)`: `this.systems.delete(system)`. -/
def removeSystem (s : System) (w : World) : World :=
  { w with systems := jdelete w.systems s }

/-- `destroyEntity(entity)` (private): drop the container and purge the id
from every system's result set. -/
def destroyEntity (e : Nat) (w : World) : World :=
  { w with
      entities := jdelete w.entities e,
      systems := w.systems.map (fun p => (p.1, sDel p.2 e)) }

/-- One iteration of the destruction drain in `tick`:
`this.destroyEntity(this.entitiesToDestroy.pop()!)` — pop takes the last
element.  When the list is empty the loop guard fails and nothing happens. -/
def drainStep (w : World) : World :=
  match w.entitiesToDestroy with
  | [] => w
  | _ :: _ =>
      destroyEntity (w.entitiesToDestroy.getLastD 0)
        { w with entitiesToDestroy := w.entitiesToDestroy.dropLast }

/-- The destruction drain, fuelled: `drainIter n` runs up to `n` iterations
of the `while` loop.  Theorem `drain_terminates` below shows that
`entitiesToDestroy.length` iterations always empty the list, so
`drainDestroy` is exactly the source's `while` loop. -/
def drainIter : Nat → World → World
  | 0, w => w
  | n + 1, w => drainIter n (drainStep w)

def drainDestroy (w : World) : World :=
  drainIter w.entitiesToDestroy.length w

end World

/-! ### System behaviours as command sequences

A system's `update` is arbitrary game code that interacts with the world only
through the public API.  We represent one `update` run as the sequence of API
calls it issues; the sequence may be chosen as a function of the world the
system observes, so any computable behaviour is representable. -/

inductive Cmd where
  | addEntity : Cmd
  | removeEntity : Nat → Cmd
  | addComponent : Nat → Component → Cmd
  | removeComponent : Nat → Nat → Cmd
  | addSystem : System → Cmd
  | removeSystem : System → Cmd
deriving DecidableEq, Repr

def runCmd : Cmd → World → World
  | Cmd.addEntity, w => (World.addEntity w).2
  | Cmd.removeEntity e, w => World.removeEntity e w
  | Cmd.addComponent e c, w => World.addComponent e c w
  | Cmd.removeComponent e t, w => (World.removeComponent e t w).1
  | Cmd.addSystem s, w => World.addSystem s w
  | Cmd.removeSystem s, w => World.removeSystem s w

def runCmds (cs : List Cmd) (w : World) : World :=
  cs.foldl (fun w2 c => runCmd c w2) w

namespace World

/-- The system pass of `tick`: run each registered system in registration
order; `upd s delta w2` is the API-call sequence system `s` issues when
updated with elapsed time `delta` while observing world `w2`. -/
def sysPass (upd : System → Int → World → List Cmd) (delta : Int)
    (ks : List System) (w : World) : World :=
  ks.foldl (fun w2 s => runCmds (upd s delta w2) w2) w

/-- `tick(delta)`: all systems run once, then the deferred-destruction list
is drained completely. -/
def tick (upd : System → Int → World → List Cmd) (delta : Int)
    (w : World) : World :=
  drainDestroy (sysPass upd delta (jkeys w.systems) w)

end World

/-! ## Characterisation of the bookkeeping passes -/

namespace World

/-- Net effect of `checkEntitySystem` on one result set. -/
def applyCheck (ents : List (Nat × CContainer)) (e : Nat) (s : System)
    (es : List Nat) : List Nat :=
  if entityMatches ents e s then sAdd es e else sDel es e

@[simp] theorem checkEntitySystem_entities (e : Nat) (s : System) (w : World) :
    (checkEntitySystem e s w).entities = w.entities := by
  unfold checkEntitySystem
  split <;> rfl

@[simp] theorem checkEntitySystem_etd (e : Nat) (s : System) (w : World) :
    (checkEntitySystem e s w).entitiesToDestroy = w.entitiesToDestroy := by
  unfold checkEntitySystem
  split <;> rfl

@[simp] theorem checkEntitySystem_nextID (e : Nat) (s : System) (w : World) :
    (checkEntitySystem e s w).nextEntityID = w.nextEntityID := by
  unfold checkEntitySystem
  split <;> rfl

theorem checkEntitySystem_systems (e : Nat) (s : System) (w : World) :
    (checkEntitySystem e s w).systems =
      jupdate w.systems s (fun es => applyCheck w.entities e s es) := by
  unfold checkEntitySystem applyCheck
  by_cases h : entityMatches w.entities e s <;> simp [h]

@[simp] theorem checkList_entities (e : Nat) (ks : List System) (w : World) :
    (checkList e ks w).entities = w.entities := by
  induction ks generalizing w with
  | nil => rfl
  | cons s rest ih => simp [checkList, List.foldl_cons, ih, checkList] at ih ⊢
                      exact (ih _).trans (by simp)

@[simp] theorem checkList_etd (e : Nat) (ks : List System) (w : World) :
    (checkList e ks w).entitiesToDestroy = w.entitiesToDestroy := by
  induction ks generalizing w with
  | nil => rfl
  | cons s rest ih => exact (ih _).trans (by simp)

@[simp] theorem checkList_nextID (e : Nat) (ks : List System) (w : World) :
    (checkList e ks w).nextEntityID = w.nextEntityID := by
  induction ks generalizing w with
  | nil => rfl
  | cons s rest ih => exact (ih _).trans (by simp)

theorem checkList_systems (e : Nat) (ks : List System) (w : World)
    (hnd : ks.Nodup) :
    (checkList e ks w).systems =
      w.systems.map (fun p =>
        if p.1 ∈ ks then (p.1, applyCheck w.entities e p.1 p.2) else p) := by
  induction ks generalizing w with
  | nil =>
      simp [checkList]
  | cons s rest ih =>
      simp only [List.nodup_cons] at hnd
      have step : checkList e (s :: rest) w =
          checkList e rest (checkEntitySystem e s w) := rfl
      rw [step, ih _ hnd.2, checkEntitySystem_entities,
        checkEntitySystem_systems]
      unfold jupdate
      rw [List.map_map]
      apply List.map_congr_left
      intro p _
      by_cases hp : p.1 = s
      · have hns : s ∉ rest := hnd.1
        simp only [Function.comp, hp, if_pos rfl]
        simp [hp, hns]
      · simp only [Function.comp, hp, if_neg hp]
        by_cases hmem : p.1 ∈ rest <;> simp [hp, hmem]

/-- The result sets after `checkEntity`: every registered system's set is
re-evaluated at the touched entity. -/
theorem checkEntity_systems (e : Nat) (w : World)
    (hnd : (jkeys w.systems).Nodup) :
    (checkEntity e w).systems =
      w.systems.map (fun p => (p.1, applyCheck w.entities e p.1 p.2)) := by
  unfold checkEntity
  rw [checkList_systems e _ w hnd]
  apply List.map_congr_left
  intro p hp
  have : p.1 ∈ jkeys w.systems := List.mem_map_of_mem Prod.fst hp
  simp [this]

@[simp] theorem checkEntity_entities (e : Nat) (w : World) :
    (checkEntity e w).entities = w.entities := checkList_entities e _ w

@[simp] theorem checkEntity_etd (e : Nat) (w : World) :
    (checkEntity e w).entitiesToDestroy = w.entitiesToDestroy :=
  checkList_etd e _ w

@[simp] theorem checkEntity_nextID (e : Nat) (w : World) :
    (checkEntity e w).nextEntityID = w.nextEntityID :=
  checkList_nextID e _ w

/-- Net effect of the `addSystem` seeding loop on the new system's set. -/
def seedFold (ents : List (Nat × CContainer)) (s : System) (ks : List Nat)
    (es : List Nat) : List Nat :=
  ks.foldl (fun acc e => applyCheck ents e s acc) es

@[simp] theorem seedList_entities (s : System) (ks : List Nat) (w : World) :
    (seedList s ks w).entities = w.entities := by
  induction ks generalizing w with
  | nil => rfl
  | cons x rest ih => exact (ih _).trans (by simp)

@[simp] theorem seedList_etd (s : System) (ks : List Nat) (w : World) :
    (seedList s ks w).entitiesToDestroy = w.entitiesToDestroy := by
  induction ks generalizing w with
  | nil => rfl
  | cons x rest ih => exact (ih _).trans (by simp)

@[simp] theorem seedList_nextID (s : System) (ks : List Nat) (w : World) :
    (seedList s ks w).nextEntityID = w.nextEntityID := by
  induction ks generalizing w with
  | nil => rfl
  | cons x rest ih => exact (ih _).trans (by simp)

theorem seedList_systems (s : System) (ks : List Nat) (w : World) :
    (seedList s ks w).systems =
      jupdate w.systems s (fun es => seedFold w.entities s ks es) := by
  induction ks generalizing w with
  | nil =>
      simp [seedList, seedFold, jupdate_id]
  | cons x rest ih =>
      have step : seedList s (x :: rest) w =
          seedList s rest (checkEntitySystem x s w) := rfl
      rw [step, ih, checkEntitySystem_entities, checkEntitySystem_systems,
        jupdate_jupdate_same]
      rfl

theorem mem_seedFold (ents : List (Nat × CContainer)) (s : System)
    (ks : List Nat) (es : List Nat) (x : Nat) :
    x ∈ seedFold ents s ks es ↔
      (if x ∈ ks then entityMatches ents x s = true else x ∈ es) := by
  induction ks generalizing es with
  | nil => simp [seedFold]
  | cons e rest ih =>
      have step : seedFold ents s (e :: rest) es =
          seedFold ents s rest (applyCheck ents e s es) := rfl
      rw [step, ih]
      by_cases hrest : x ∈ rest
      · simp [hrest]
      · by_cases hx : x = e
        · subst hx
          unfold applyCheck
          by_cases hm : entityMatches ents x s <;> simp [hrest, hm]
        · unfold applyCheck
          by_cases hm : entityMatches ents e s <;>
            simp [hrest, hx, hm, List.mem_cons]

theorem mem_applyCheck_self (ents : List (Nat × CContainer)) (e : Nat)
    (s : System) (es : List Nat) :
    e ∈ applyCheck ents e s es ↔ entityMatches ents e s = true := by
  unfold applyCheck
  by_cases h : entityMatches ents e s <;> simp [h]

theorem mem_applyCheck_ne (ents : List (Nat × CContainer)) (e x : Nat)
    (s : System) (es : List Nat) (h : x ≠ e) :
    x ∈ applyCheck ents e s es ↔ x ∈ es := by
  unfold applyCheck
  by_cases hm : entityMatches ents e s <;> simp [hm, h]

theorem entityMatches_of_none (ents : List (Nat × CContainer)) (e : Nat)
    (s : System) (h : jget ents e = none) :
    entityMatches ents e s = false := by
  unfold entityMatches
  rw [h]

theorem mem_jkeys_of_entityMatches (ents : List (Nat × CContainer)) (e : Nat)
    (s : System) (h : entityMatches ents e s = true) : e ∈ jkeys ents := by
  unfold entityMatches at h
  cases hg : jget ents e with
  | none => rw [hg] at h; exact Bool.noConfusion h
  | some cc => exact mem_jkeys_of_jget _ _ _ hg

theorem entityMatches_congr (ents1 ents2 : List (Nat × CContainer)) (e : Nat)
    (s : System) (h : jget ents1 e = jget ents2 e) :
    entityMatches ents1 e s = entityMatches ents2 e s := by
  unfold entityMatches
  rw [h]

theorem hasAll_empty_of_ne_nil (ts : List Nat) (h : ts ≠ []) :
    CContainer.hasAll CContainer.empty ts = false := by
  cases ts with
  | nil => exact absurd rfl h
  | cons t rest =>
      simp [CContainer.hasAll, CContainer.has, CContainer.empty]

/-! ## The well-formedness invariant of reachable worlds -/

/-- Well-formedness of a `World` state: the two maps have distinct keys (as
JS `Map`s always do), allocated entity ids are below the allocation counter,
registered systems have non-empty required sets (`addSystem` refuses the
rest), and every result set is exactly the set of entities whose container
holds all of the system's required classes. -/
def WInv (w : World) : Prop :=
  (jkeys w.entities).Nodup ∧
  (jkeys w.systems).Nodup ∧
  (∀ k ∈ jkeys w.entities, k < w.nextEntityID) ∧
  (∀ p ∈ w.systems, p.1.componentsRequired ≠ []) ∧
  (∀ p ∈ w.systems, ∀ e, e ∈ p.2 ↔ entityMatches w.entities e p.1 = true)

theorem WInv_init : WInv World.init := by
  refine ⟨?_, ?_, ?_, ?_, ?_⟩ <;> simp [World.init]

theorem WInv_checkEntity_gen (w : World) (e : Nat)
    (ents2 : List (Nat × CContainer)) (hW : WInv w)
    (hnd : (jkeys ents2).Nodup)
    (hbound : ∀ k ∈ jkeys ents2, k < w.nextEntityID)
    (hsame : ∀ x, x ≠ e → jget ents2 x = jget w.entities x) :
    WInv (checkEntity e { w with entities := ents2 }) := by
  obtain ⟨hnd1, hnd2, hb, hreq, hmem⟩ := hW
  have hsys := checkEntity_systems e { w with entities := ents2 } hnd2
  refine ⟨?_, ?_, ?_, ?_, ?_⟩
  · simpa using hnd
  · rw [hsys]
    simpa [jkeys_map_snd] using hnd2
  · simpa using hbound
  · intro p hp
    rw [hsys] at hp
    obtain ⟨q, hq, rfl⟩ := List.mem_map.mp hp
    exact hreq q hq
  · intro p hp x
    rw [hsys] at hp
    obtain ⟨q, hq, rfl⟩ := List.mem_map.mp hp
    simp only [checkEntity_entities]
    by_cases hx : x = e
    · subst hx
      exact mem_applyCheck_self ents2 x q.1 q.2
    · rw [mem_applyCheck_ne ents2 e x q.1 q.2 hx, hmem q hq x]
      constructor
      · intro hm
        rwa [entityMatches_congr ents2 w.entities x q.1 (hsame x hx)]
      · intro hm
        rwa [← entityMatches_congr ents2 w.entities x q.1 (hsame x hx)]

theorem WInv_addComponent (e : Nat) (c : Component) (w : World)
    (hW : WInv w) : WInv (addComponent e c w) := by
  unfold addComponent
  cases hg : jget w.entities e with
  | none =>
      simp only [hg]
      have := WInv_checkEntity_gen w e w.entities hW hW.1 hW.2.2.1
        (fun x _ => rfl)
      simpa using this
  | some cc =>
      simp only [hg]
      apply WInv_checkEntity_gen w e _ hW
      · exact nodup_jkeys_jset _ _ _ hW.1
      · intro k hk
        rw [jkeys_jset] at hk
        have hmem : e ∈ jkeys w.entities := mem_jkeys_of_jget _ _ _ hg
        rw [if_pos hmem] at hk
        exact hW.2.2.1 k hk
      · intro x hx
        exact jget_jset_ne _ _ _ _ hx

theorem WInv_removeComponent (e : Nat) (t : Nat) (w : World)
    (hW : WInv w) : WInv (removeComponent e t w).1 := by
  unfold removeComponent
  cases hg : jget w.entities e with
  | none =>
      simp only [hg]
      have := WInv_checkEntity_gen w e w.entities hW hW.1 hW.2.2.1
        (fun x _ => rfl)
      simpa using this
  | some cc =>
      simp only [hg]
      apply WInv_checkEntity_gen w e _ hW
      · exact nodup_jkeys_jset _ _ _ hW.1
      · intro k hk
        rw [jkeys_jset] at hk
        have hmem : e ∈ jkeys w.entities := mem_jkeys_of_jget _ _ _ hg
        rw [if_pos hmem] at hk
        exact hW.2.2.1 k hk
      · intro x hx
        exact jget_jset_ne _ _ _ _ hx

theorem WInv_addEntity (w : World) (hW : WInv w) : WInv (addEntity w).2 := by
  obtain ⟨hnd1, hnd2, hb, hreq, hmem⟩ := hW
  have hfresh : w.nextEntityID ∉ jkeys w.entities := by
    intro hmemk
    exact absurd (hb _ hmemk) (lt_irrefl _)
  have hkeys : jkeys (jset w.entities w.nextEntityID CContainer.empty) =
      jkeys w.entities ++ [w.nextEntityID] := by
    rw [jkeys_jset, if_neg hfresh]
  refine ⟨?_, ?_, ?_, ?_, ?_⟩
  · exact nodup_jkeys_jset _ _ _ hnd1
  · exact hnd2
  · intro k hk
    simp only [addEntity] at hk ⊢
    rw [hkeys] at hk
    rcases List.mem_append.mp hk with hk | hk
    · exact Nat.lt_succ_of_lt (hb k hk)
    · simp only [List.mem_singleton] at hk
      subst hk
      exact Nat.lt_succ_self _
  · exact hreq
  · intro p hp x
    simp only [addEntity] at hp ⊢
    by_cases hx : x = w.nextEntityID
    · subst hx
      have hnone : jget w.entities w.nextEntityID = none :=
        jget_eq_none_of_not_mem _ _ hfresh
      have hold : w.nextEntityID ∉ p.2 := by
        rw [hmem p hp w.nextEntityID, entityMatches_of_none _ _ _ hnone]
        exact Bool.false_ne_true
      have hnew : entityMatches
          (jset w.entities w.nextEntityID CContainer.empty)
          w.nextEntityID p.1 = false := by
        unfold entityMatches
        rw [jget_jset_self]
        exact hasAll_empty_of_ne_nil _ (hreq p hp)
      rw [hnew]
      simp [hold]
    · rw [hmem p hp x]
      constructor
      · intro hm
        rwa [entityMatches_congr _ w.entities x p.1
          (jget_jset_ne _ _ _ _ hx)]
      · intro hm
        rwa [← entityMatches_congr _ w.entities x p.1
          (jget_jset_ne _ _ _ _ hx)]

theorem WInv_removeEntity (e : Nat) (w : World) (hW : WInv w) :
    WInv (removeEntity e w) := hW

theorem WInv_addSystem (s : System) (w : World) (hW : WInv w) :
    WInv (addSystem s w) := by
  obtain ⟨hnd1, hnd2, hb, hreq, hmem⟩ := hW
  by_cases hreq0 : s.componentsRequired = []
  · unfold addSystem
    rw [if_pos hreq0]
    exact ⟨hnd1, hnd2, hb, hreq, hmem⟩
  · unfold addSystem
    rw [if_neg hreq0]
    have hseed := seedList_systems s
      (jkeys ({ w with systems := jset w.systems s [] } : World).entities)
      { w with systems := jset w.systems s [] }
    refine ⟨?_, ?_, ?_, ?_, ?_⟩
    · simpa using hnd1
    · rw [hseed]
      simpa [jkeys_jupdate] using nodup_jkeys_jset _ s [] hnd2
    · simpa using hb
    · intro p hp
      rw [hseed] at hp
      obtain ⟨q, hq, hpq⟩ := List.mem_map.mp hp
      have hq2 := (mem_jset_iff w.systems s [] q hnd2).mp hq
      by_cases hqs : q.1 = s
      · rw [if_pos hqs] at hpq
        subst hpq
        simpa [hqs] using hreq0
      · rw [if_neg hqs] at hpq
        subst hpq
        rcases hq2 with rfl | ⟨hq3, _⟩
        · exact absurd rfl hqs
        · exact hreq q hq3
    · intro p hp x
      rw [hseed] at hp
      obtain ⟨q, hq, hpq⟩ := List.mem_map.mp hp
      have hq2 := (mem_jset_iff w.systems s [] q hnd2).mp hq
      by_cases hqs : q.1 = s
      · rw [if_pos hqs] at hpq
        rcases hq2 with rfl | ⟨_, hne⟩
        · subst hpq
          simp only [seedList_entities]
          rw [mem_seedFold]
          by_cases hks : x ∈ jkeys w.entities
          · simpa [hks] using Iff.rfl
          · rw [if_neg hks]
            simp only [List.not_mem_nil, false_iff]
            intro hmm
            exact hks (mem_jkeys_of_entityMatches _ _ _ hmm)
        · exact absurd hqs hne
      · rw [if_neg hqs] at hpq
        subst hpq
        rcases hq2 with rfl | ⟨hq3, _⟩
        · exact absurd rfl hqs
        · simpa using hmem q hq3 x

theorem WInv_removeSystem (s : System) (w : World) (hW : WInv w) :
    WInv (removeSystem s w) := by
  obtain ⟨hnd1, hnd2, hb, hreq, hmem⟩ := hW
  refine ⟨hnd1, nodup_jkeys_jdelete _ _ hnd2, hb, ?_, ?_⟩
  · intro p hp
    exact hreq p ((jdelete_sublist w.systems s).subset hp)
  · intro p hp x
    exact hmem p ((jdelete_sublist w.systems s).subset hp) x

theorem WInv_runCmd (c : Cmd) (w : World) (hW : WInv w) :
    WInv (runCmd c w) := by
  cases c with
  | addEntity => exact WInv_addEntity w hW
  | removeEntity e => exact WInv_removeEntity e w hW
  | addComponent e c => exact WInv_addComponent e c w hW
  | removeComponent e t => exact WInv_removeComponent e t w hW
  | addSystem s => exact WInv_addSystem s w hW
  | removeSystem s => exact WInv_removeSystem s w hW

theorem WInv_runCmds (cs : List Cmd) (w : World) (hW : WInv w) :
    WInv (runCmds cs w) := by
  induction cs generalizing w with
  | nil => exact hW
  | cons c rest ih => exact ih _ (WInv_runCmd c w hW)

/-! ## The deferred-destruction drain -/

@[simp] theorem destroyEntity_etd (e : Nat) (w : World) :
    (destroyEntity e w).entitiesToDestroy = w.entitiesToDestroy := rfl

@[simp] theorem destroyEntity_nextID (e : Nat) (w : World) :
    (destroyEntity e w).nextEntityID = w.nextEntityID := rfl

theorem drainStep_of_nil (w : World) (h : w.entitiesToDestroy = []) :
    drainStep w = w := by
  unfold drainStep
  rw [h]

theorem drainStep_of_ne_nil (w : World) (h : w.entitiesToDestroy ≠ []) :
    drainStep w =
      destroyEntity (w.entitiesToDestroy.getLastD 0)
        { w with entitiesToDestroy := w.entitiesToDestroy.dropLast } := by
  unfold drainStep
  cases hl : w.entitiesToDestroy with
  | nil => exact absurd hl h
  | cons a rest => rfl

theorem destroy_nodup_entities (e : Nat) (w : World)
    (h : (jkeys w.entities).Nodup) :
    (jkeys (destroyEntity e w).entities).Nodup :=
  nodup_jkeys_jdelete _ _ h

theorem destroy_absent_entities (e x : Nat) (w : World)
    (h : jget w.entities x = none) :
    jget (destroyEntity e w).entities x = none :=
  jget_jdelete_none _ _ _ h

theorem destroy_absent_sets (e x : Nat) (w : World)
    (h : ∀ p ∈ w.systems, x ∉ p.2) :
    ∀ p ∈ (destroyEntity e w).systems, x ∉ p.2 := by
  intro p hp
  obtain ⟨q, hq, rfl⟩ := List.mem_map.mp hp
  intro hx
  exact h q hq ((mem_sDel q.2 e x).mp hx).1

theorem destroy_self_absent (e : Nat) (w : World)
    (hnd : (jkeys w.entities).Nodup) :
    jget (destroyEntity e w).entities e = none ∧
      ∀ p ∈ (destroyEntity e w).systems, e ∉ p.2 := by
  refine ⟨jget_jdelete_self _ _ hnd, ?_⟩
  intro p hp
  obtain ⟨q, hq, rfl⟩ := List.mem_map.mp hp
  intro hx
  exact ((mem_sDel q.2 e e).mp hx).2 rfl

theorem drainStep_nodup (w : World) (h : (jkeys w.entities).Nodup) :
    (jkeys (drainStep w).entities).Nodup := by
  cases hl : w.entitiesToDestroy with
  | nil => rwa [drainStep_of_nil w hl]
  | cons a rest =>
      rw [drainStep_of_ne_nil w (by rw [hl]; exact List.cons_ne_nil a rest)]
      exact destroy_nodup_entities _ _ h

theorem drainIter_absent_stable (n : Nat) (w : World) (x : Nat)
    (h1 : jget w.entities x = none) (h2 : ∀ p ∈ w.systems, x ∉ p.2) :
    jget (drainIter n w).entities x = none ∧
      ∀ p ∈ (drainIter n w).systems, x ∉ p.2 := by
  induction n generalizing w with
  | zero => exact ⟨h1, h2⟩
  | succ n ih =>
      cases hl : w.entitiesToDestroy with
      | nil =>
          simp only [drainIter]
          rw [drainStep_of_nil w hl]
          exact ih w h1 h2
      | cons a rest =>
          simp only [drainIter]
          rw [drainStep_of_ne_nil w (by rw [hl]; exact List.cons_ne_nil a rest)]
          exact ih _ (destroy_absent_entities _ _ _ h1)
            (destroy_absent_sets _ _ _ h2)

theorem dropLast_concat_getLastD (l : List Nat) (h : l ≠ []) :
    l.dropLast ++ [l.getLastD 0] = l := by
  induction l with
  | nil => exact absurd rfl h
  | cons a rest ih =>
      cases rest with
      | nil => rfl
      | cons b rest2 =>
          simp only [List.dropLast_cons₂, List.cons_append, List.cons.injEq,
            true_and]
          exact ih (List.cons_ne_nil b rest2)

theorem drainIter_absent (n : Nat) (w : World) (e : Nat)
    (hnd : (jkeys w.entities).Nodup)
    (hlen : w.entitiesToDestroy.length ≤ n)
    (hmem : e ∈ w.entitiesToDestroy) :
    jget (drainIter n w).entities e = none ∧
      ∀ p ∈ (drainIter n w).systems, e ∉ p.2 := by
  induction n generalizing w with
  | zero =>
      rw [Nat.le_zero, List.length_eq_zero] at hlen
      rw [hlen] at hmem
      exact absurd hmem (List.not_mem_nil e)
  | succ n ih =>
      cases hl : w.entitiesToDestroy with
      | nil =>
          rw [hl] at hmem
          exact absurd hmem (List.not_mem_nil e)
      | cons a rest =>
          have hne : w.entitiesToDestroy ≠ [] := by
            rw [hl]
            exact List.cons_ne_nil a rest
          simp only [drainIter]
          rw [drainStep_of_ne_nil w hne]
          have h1 : (destroyEntity (w.entitiesToDestroy.getLastD 0)
              { w with entitiesToDestroy := w.entitiesToDestroy.dropLast
              }).entitiesToDestroy = w.entitiesToDestroy.dropLast := rfl
          by_cases hcase : e ∈ w.entitiesToDestroy.dropLast
          · apply ih
            · exact destroy_nodup_entities _ _ hnd
            · rw [h1, List.length_dropLast]
              omega
            · rw [h1]
              exact hcase
          · have hlast : e = w.entitiesToDestroy.getLastD 0 := by
              have hsplit := dropLast_concat_getLastD w.entitiesToDestroy hne
              rw [← hsplit] at hmem
              rcases List.mem_append.mp hmem with hmm | hmm
              · exact absurd hmm hcase
              · simpa using hmm
            subst hlast
            have habs := destroy_self_absent (w.entitiesToDestroy.getLastD 0)
              { w with entitiesToDestroy := w.entitiesToDestroy.dropLast } hnd
            exact drainIter_absent_stable n _ _ habs.1 habs.2

theorem drainIter_empties (n : Nat) (w : World)
    (hlen : w.entitiesToDestroy.length ≤ n) :
    (drainIter n w).entitiesToDestroy = [] := by
  induction n generalizing w with
  | zero =>
      rw [Nat.le_zero, List.length_eq_zero] at hlen
      exact hlen
  | succ n ih =>
      cases hl : w.entitiesToDestroy with
      | nil =>
          simp only [drainIter]
          rw [drainStep_of_nil w hl]
          exact ih w (by rw [hl]; exact Nat.zero_le n)
      | cons a rest =>
          have hne : w.entitiesToDestroy ≠ [] := by
            rw [hl]
            exact List.cons_ne_nil a rest
          simp only [drainIter]
          rw [drainStep_of_ne_nil w hne]
          apply ih
          simp only [destroyEntity_etd, List.length_dropLast]
          rw [hl] at hlen ⊢
          simp only [List.length_cons] at hlen ⊢
          omega

/-! ## Stability of world data under command sequences -/

@[simp] theorem addEntity_etd (w : World) :
    (addEntity w).2.entitiesToDestroy = w.entitiesToDestroy := rfl

@[simp] theorem addComponent_etd (e : Nat) (c : Component) (w : World) :
    (addComponent e c w).entitiesToDestroy = w.entitiesToDestroy := by
  unfold addComponent
  cases hg : jget w.entities e <;> simp [hg]

@[simp] theorem removeComponent_etd (e t : Nat) (w : World) :
    (removeComponent e t w).1.entitiesToDestroy = w.entitiesToDestroy := by
  unfold removeComponent
  cases hg : jget w.entities e <;> simp [hg]

@[simp] theorem addSystem_etd (s : System) (w : World) :
    (addSystem s w).entitiesToDestroy = w.entitiesToDestroy := by
  unfold addSystem
  by_cases h : s.componentsRequired = [] <;> simp [h]

theorem runCmd_etd_mono (c : Cmd) (w : World) (e : Nat)
    (h : e ∈ w.entitiesToDestroy) : e ∈ (runCmd c w).entitiesToDestroy := by
  cases c with
  | addEntity => exact h
  | removeEntity x =>
      simp only [runCmd, removeEntity]
      exact List.mem_append_left _ h
  | addComponent x c => simpa [runCmd] using h
  | removeComponent x t => simpa [runCmd] using h
  | addSystem s => simpa [runCmd] using h
  | removeSystem s => exact h

theorem runCmds_etd_mono (cs : List Cmd) (w : World) (e : Nat)
    (h : e ∈ w.entitiesToDestroy) : e ∈ (runCmds cs w).entitiesToDestroy := by
  induction cs generalizing w with
  | nil => exact h
  | cons c rest ih => exact ih _ (runCmd_etd_mono c w e h)

theorem sysPass_etd_mono (upd : System → Int → World → List Cmd) (delta : Int)
    (ks : List System) (w : World) (e : Nat)
    (h : e ∈ w.entitiesToDestroy) :
    e ∈ (sysPass upd delta ks w).entitiesToDestroy := by
  induction ks generalizing w with
  | nil => exact h
  | cons s rest ih => exact ih _ (runCmds_etd_mono _ _ e h)

@[simp] theorem addSystem_entities (s : System) (w : World) :
    (addSystem s w).entities = w.entities := by
  unfold addSystem
  by_cases h : s.componentsRequired = [] <;> simp [h]

theorem runCmd_nodup_entities (c : Cmd) (w : World)
    (h : (jkeys w.entities).Nodup) :
    (jkeys (runCmd c w).entities).Nodup := by
  cases c with
  | addEntity => exact nodup_jkeys_jset _ _ _ h
  | removeEntity x => exact h
  | addComponent x c =>
      unfold runCmd addComponent
      cases hg : jget w.entities x with
      | none => simpa [hg] using h
      | some cc => simpa [hg] using nodup_jkeys_jset _ _ _ h
  | removeComponent x t =>
      unfold runCmd removeComponent
      cases hg : jget w.entities x with
      | none => simpa [hg] using h
      | some cc => simpa [hg] using nodup_jkeys_jset _ _ _ h
  | addSystem s => simpa [runCmd] using h
  | removeSystem s => exact h

theorem runCmds_nodup_entities (cs : List Cmd) (w : World)
    (h : (jkeys w.entities).Nodup) :
    (jkeys (runCmds cs w).entities).Nodup := by
  induction cs generalizing w with
  | nil => exact h
  | cons c rest ih => exact ih _ (runCmd_nodup_entities c w h)

theorem sysPass_nodup_entities (upd : System → Int → World → List Cmd)
    (delta : Int) (ks : List System) (w : World)
    (h : (jkeys w.entities).Nodup) :
    (jkeys (sysPass upd delta ks w).entities).Nodup := by
  induction ks generalizing w with
  | nil => exact h
  | cons s rest ih => exact ih _ (runCmds_nodup_entities _ _ h)

theorem runCmd_entities_key_mono (c : Cmd) (w : World) (e : Nat)
    (h : e ∈ jkeys w.entities) : e ∈ jkeys (runCmd c w).entities := by
  cases c with
  | addEntity =>
      show e ∈ jkeys (jset w.entities w.nextEntityID CContainer.empty)
      rw [jkeys_jset]
      by_cases hm : w.nextEntityID ∈ jkeys w.entities
      · rwa [if_pos hm]
      · rw [if_neg hm]
        exact List.mem_append_left _ h
  | removeEntity x => exact h
  | addComponent x c =>
      unfold runCmd addComponent
      cases hg : jget w.entities x with
      | none => simpa [hg] using h
      | some cc =>
          simp only [hg, checkEntity_entities]
          rw [jkeys_jset]
          by_cases hm : x ∈ jkeys w.entities
          · rwa [if_pos hm]
          · rw [if_neg hm]
            exact List.mem_append_left _ h
  | removeComponent x t =>
      unfold runCmd removeComponent
      cases hg : jget w.entities x with
      | none => simpa [hg] using h
      | some cc =>
          simp only [hg, checkEntity_entities]
          rw [jkeys_jset]
          by_cases hm : x ∈ jkeys w.entities
          · rwa [if_pos hm]
          · rw [if_neg hm]
            exact List.mem_append_left _ h
  | addSystem s => simpa [runCmd] using h
  | removeSystem s => exact h

theorem runCmds_entities_key_mono (cs : List Cmd) (w : World) (e : Nat)
    (h : e ∈ jkeys w.entities) : e ∈ jkeys (runCmds cs w).entities := by
  induction cs generalizing w with
  | nil => exact h
  | cons c rest ih => exact ih _ (runCmd_entities_key_mono c w e h)

theorem eq_of_fields {w1 w2 : World} (h1 : w1.entities = w2.entities)
    (h2 : w1.systems = w2.systems) (h3 : w1.nextEntityID = w2.nextEntityID)
    (h4 : w1.entitiesToDestroy = w2.entitiesToDestroy) : w1 = w2 := by
  cases w1
  cases w2
  simp_all

theorem checkList_jkeys (e : Nat) (ks : List System) (w : World) :
    jkeys (checkList e ks w).systems = jkeys w.systems := by
  induction ks generalizing w with
  | nil => rfl
  | cons s rest ih =>
      have step : checkList e (s :: rest) w =
          checkList e rest (checkEntitySystem e s w) := rfl
      rw [step, ih, checkEntitySystem_systems, jkeys_jupdate]

theorem runCmd_nodup_systems (c : Cmd) (w : World)
    (h : (jkeys w.systems).Nodup) :
    (jkeys (runCmd c w).systems).Nodup := by
  cases c with
  | addEntity => exact h
  | removeEntity x => exact h
  | addComponent x c =>
      unfold runCmd addComponent
      cases hg : jget w.entities x with
      | none => simpa [hg, checkEntity, checkList_jkeys] using h
      | some cc => simpa [hg, checkEntity, checkList_jkeys] using h
  | removeComponent x t =>
      unfold runCmd removeComponent
      cases hg : jget w.entities x with
      | none => simpa [hg, checkEntity, checkList_jkeys] using h
      | some cc => simpa [hg, checkEntity, checkList_jkeys] using h
  | addSystem s =>
      show (jkeys (addSystem s w).systems).Nodup
      unfold addSystem
      by_cases hreq : s.componentsRequired = []
      · simpa [hreq] using h
      · rw [if_neg hreq]
        rw [seedList_systems, jkeys_jupdate]
        exact nodup_jkeys_jset _ _ _ h
  | removeSystem s => exact nodup_jkeys_jdelete _ _ h

theorem runCmds_nodup_systems (cs : List Cmd) (w : World)
    (h : (jkeys w.systems).Nodup) :
    (jkeys (runCmds cs w).systems).Nodup := by
  induction cs generalizing w with
  | nil => exact h
  | cons c rest ih => exact ih _ (runCmd_nodup_systems c w h)

theorem runCmds_append (a b : List Cmd) (w : World) :
    runCmds (a ++ b) w = runCmds b (runCmds a w) := by
  unfold runCmds
  rw [List.foldl_append]

/-- After `addComponent(e, c)` every registered system's result set has been
re-evaluated at `e`: `e` belongs to a system's set exactly when its container
now holds all of the system's required classes.  This is the synchronous
result-set maintenance that makes mid-tick mutations visible to
later-running systems. -/
theorem addComponent_result_mem (e : Nat) (c : Component) (w : World)
    (hnd : (jkeys w.systems).Nodup) (s : System) (es : List Nat)
    (hes : jget (addComponent e c w).systems s = some es) :
    (e ∈ es ↔ entityMatches (addComponent e c w).entities e s = true) := by
  unfold addComponent at hes ⊢
  cases hg : jget w.entities e with
  | none =>
      simp only [hg] at hes ⊢
      have hchar := checkEntity_systems e w hnd
      rw [hchar] at hes
      obtain ⟨q, hq, hpair⟩ := List.mem_map.mp (jget_mem _ _ _ hes)
      obtain ⟨hq1, hq2⟩ := Prod.mk.injEq _ _ _ _ ▸ hpair
      subst hq1
      rw [← hq2, checkEntity_entities]
      exact mem_applyCheck_self w.entities e q.1 q.2
  | some cc =>
      simp only [hg] at hes ⊢
      have hnd2 : (jkeys ({ w with
          entities := jset w.entities e (CContainer.add cc c) } : World
          ).systems).Nodup := hnd
      have hchar := checkEntity_systems e
        { w with entities := jset w.entities e (CContainer.add cc c) } hnd2
      rw [hchar] at hes
      obtain ⟨q, hq, hpair⟩ := List.mem_map.mp (jget_mem _ _ _ hes)
      obtain ⟨hq1, hq2⟩ := Prod.mk.injEq _ _ _ _ ▸ hpair
      subst hq1
      rw [← hq2, checkEntity_entities]
      exact mem_applyCheck_self _ e q.1 q.2

/-- `checkEntity` does nothing at all on an entity that is absent from the
store and from every result set. -/
theorem checkEntity_noop (e : Nat) (w : World)
    (hnd : (jkeys w.systems).Nodup)
    (habs : jget w.entities e = none)
    (hsets : ∀ p ∈ w.systems, e ∉ p.2) :
    checkEntity e w = w := by
  apply eq_of_fields
  · exact checkEntity_entities e w
  · rw [checkEntity_systems e w hnd]
    have hpt : ∀ p ∈ w.systems,
        (fun p => (p.1, applyCheck w.entities e p.1 p.2)) p = p := by
      intro p hp
      have hm : entityMatches w.entities e p.1 = false :=
        entityMatches_of_none _ _ _ habs
      simp only [applyCheck, hm, Bool.false_eq_true, if_false]
      rw [sDel_of_not_mem _ _ (hsets p hp)]
    rw [List.map_congr_left hpt]
    exact List.map_id _
  · exact checkEntity_nextID e w
  · exact checkEntity_etd e w

end World

/-! ## The live-query `World` variant

In this variant each system object owns an `EntityQuery` with a mutable
`types` set and a mutable entity-to-tuple map; the world holds a `Set` of
registered systems and keeps each registered system's query up to date.  We
model system object identity by a natural number `sid`, and the heap of all
system objects' query states as a map `queries : sid to EntityQuery` carried
in the state (systems exist as objects even while unregistered). -/

structure EntityQuery where
  types : List Nat
  entities : List (Nat × List Component)
deriving DecidableEq

structure LWorld where
  entities : List (Nat × CContainer)
  systems : List Nat
  queries : List (Nat × EntityQuery)
  nextEntityID : Nat
  entitiesToDestroy : List Nat
deriving DecidableEq

namespace LWorld

def addEntity (w : LWorld) : Nat × LWorld :=
  (w.nextEntityID,
    { w with
        entities := jset w.entities w.nextEntityID CContainer.empty,
        nextEntityID := w.nextEntityID + 1 })

def removeEntity (e : Nat) (w : LWorld) : LWorld :=
  { w with entitiesToDestroy := w.entitiesToDestroy ++ [e] }

/-- `system.query.entities.delete(entity)` on the system object `sid`. -/
def queryErase (sid e : Nat) (w : LWorld) : LWorld :=
  { w with queries := (jupdate w.queries sid
      (fun q2 => { q2 with entities := jdelete q2.entities e })) }

/-- `system.query.entities.set(entity, components)` on the system object. -/
def queryStore (sid e : Nat) (l : List Component) (w : LWorld) : LWorld :=
  { w with queries := (jupdate w.queries sid
      (fun q2 => { q2 with entities := jset q2.entities e l })) }

/-- `checkEntitySystem(entity, system)` of the live-query variant:
`getAll` the system's required types from the entity's container
(`this.entities.get(entity)?.getAll(system.query.types)`); when that is
`null` (entity missing, or some required type missing) drop the entity from
the query's map, otherwise store the fresh tuple. -/
def checkEntitySystem (e : Nat) (sid : Nat) (w : LWorld) : LWorld :=
  match jget w.queries sid with
  | none => w
  | some q =>
      match (jget w.entities e).bind
          (fun cc => CContainer.getAll cc q.types) with
      | none => queryErase sid e w
      | some l => queryStore sid e l w

def checkEntity (e : Nat) (w : LWorld) : LWorld :=
  w.systems.foldl (fun w2 sid => checkEntitySystem e sid w2) w

def addComponent (e : Nat) (c : Component) (w : LWorld) : LWorld :=
  let w1 :=
    match jget w.entities e with
    | some cc => { w with entities := jset w.entities e (CContainer.add cc c) }
    | none => w
  checkEntity e w1

def removeComponent (e : Nat) (t : Nat) (w : LWorld) : LWorld × Bool :=
  match jget w.entities e with
  | some cc =>
      (checkEntity e
        { w with entities := jset w.entities e (CContainer.remove cc t).1 },
       (CContainer.remove cc t).2)
  | none => (checkEntity e w, false)

/-- `addSystem(system)`: refuse when `system.query.types` is empty
(`console.warn`), otherwise add to the system set and seed the query from
every existing entity. -/
def addSystem (sid : Nat) (w : LWorld) : LWorld :=
  match jget w.queries sid with
  | none => w
  | some q =>
      if q.types = [] then w
      else
        let w1 := { w with systems := sAdd w.systems sid }
        (jkeys w1.entities).foldl (fun w2 e => checkEntitySystem e sid w2) w1

/-- `removeSystem(system)`: clears the system's own query object in place
(`query.types.clear(); query.entities.clear()`) and removes the system from
the set. -/
def removeSystem (sid : Nat) (w : LWorld) : LWorld :=
  { w with
      queries := (jupdate w.queries sid
        (fun _ => { types := [], entities := [] })),
      systems := sDel w.systems sid }

/-- `destroyEntity(entity)` (private): drop the container and delete the id
from every registered system's query map. -/
def destroyEntity (e : Nat) (w : LWorld) : LWorld :=
  { w with
      entities := jdelete w.entities e,
      queries := (w.systems.foldl
        (fun qs sid => jupdate qs sid
          (fun q => { q with entities := jdelete q.entities e }))
        w.queries) }

end LWorld

/-- Everything the live-query variant can do to the world: the public API
calls a system's `update` may issue, plus the internal `destroyEntity` steps
that `update()`'s drain performs after the pass. -/
inductive LCmd where
  | addEntity : LCmd
  | removeEntity : Nat → LCmd
  | addComponent : Nat → Component → LCmd
  | removeComponent : Nat → Nat → LCmd
  | addSystem : Nat → LCmd
  | removeSystem : Nat → LCmd
  | destroyEntity : Nat → LCmd
deriving DecidableEq

def runLCmd : LCmd → LWorld → LWorld
  | LCmd.addEntity, w => (LWorld.addEntity w).2
  | LCmd.removeEntity e, w => LWorld.removeEntity e w
  | LCmd.addComponent e c, w => LWorld.addComponent e c w
  | LCmd.removeComponent e t, w => (LWorld.removeComponent e t w).1
  | LCmd.addSystem sid, w => LWorld.addSystem sid w
  | LCmd.removeSystem sid, w => LWorld.removeSystem sid w
  | LCmd.destroyEntity e, w => LWorld.destroyEntity e w

def runLCmds (cs : List LCmd) (w : LWorld) : LWorld :=
  cs.foldl (fun w2 c => runLCmd c w2) w

namespace LWorld

/-- A system object whose query has been cleared by `removeSystem` and which
is no longer registered. -/
def detached (sid : Nat) (w : LWorld) : Prop :=
  jget w.queries sid = some { types := [], entities := [] } ∧
    sid ∉ w.systems

@[simp] theorem queryErase_queries (sid e : Nat) (w : LWorld) :
    (queryErase sid e w).queries = jupdate w.queries sid
      (fun q2 => { q2 with entities := jdelete q2.entities e }) := rfl

@[simp] theorem queryStore_queries (sid e : Nat) (l : List Component)
    (w : LWorld) :
    (queryStore sid e l w).queries = jupdate w.queries sid
      (fun q2 => { q2 with entities := jset q2.entities e l }) := rfl

theorem checkEntitySystemLive_systems (e sid : Nat) (w : LWorld) :
    (checkEntitySystem e sid w).systems = w.systems := by
  unfold checkEntitySystem
  split
  · rfl
  · split <;> rfl

theorem checkEntitySystem_queries_ne (e sid sid2 : Nat) (w : LWorld)
    (h : sid2 ≠ sid) :
    jget (checkEntitySystem e sid w).queries sid2 = jget w.queries sid2 := by
  unfold checkEntitySystem
  split
  · rfl
  · split
    · rw [queryErase_queries]
      exact jget_jupdate_ne _ _ _ _ h
    · rw [queryStore_queries]
      exact jget_jupdate_ne _ _ _ _ h

theorem detached_checkEntitySystem (sid e sid2 : Nat) (w : LWorld)
    (h : sid2 ≠ sid) (hd : detached sid w) :
    detached sid (checkEntitySystem e sid2 w) := by
  refine ⟨?_, ?_⟩
  · rw [checkEntitySystem_queries_ne e sid2 sid w (Ne.symm h)]
    exact hd.1
  · rw [checkEntitySystemLive_systems]
    exact hd.2

theorem detached_checkFoldSystems (sid e : Nat) (ks : List Nat) (w : LWorld)
    (h : sid ∉ ks) (hd : detached sid w) :
    detached sid
      (ks.foldl (fun w2 sid2 => checkEntitySystem e sid2 w2) w) := by
  induction ks generalizing w with
  | nil => exact hd
  | cons s2 rest ih =>
      simp only [List.mem_cons] at h
      push_neg at h
      exact ih _ h.2
        (detached_checkEntitySystem sid e s2 w (Ne.symm h.1) hd)

theorem detached_checkEntity (sid e : Nat) (w : LWorld)
    (hd : detached sid w) : detached sid (checkEntity e w) :=
  detached_checkFoldSystems sid e w.systems w hd.2 hd

theorem detached_seedFold (sid sid2 : Nat) (ks : List Nat) (w : LWorld)
    (h : sid2 ≠ sid) (hd : detached sid w) :
    detached sid
      (ks.foldl (fun w2 e => checkEntitySystem e sid2 w2) w) := by
  induction ks generalizing w with
  | nil => exact hd
  | cons e rest ih =>
      exact ih _ (detached_checkEntitySystem sid e sid2 w h hd)

theorem detached_addComponent (sid e : Nat) (c : Component) (w : LWorld)
    (hd : detached sid w) : detached sid (addComponent e c w) := by
  unfold addComponent
  cases hg : jget w.entities e with
  | none =>
      simp only [hg]
      exact detached_checkEntity sid e w hd
  | some cc =>
      simp only [hg]
      exact detached_checkEntity sid e _ ⟨hd.1, hd.2⟩

theorem detached_removeComponent (sid e t : Nat) (w : LWorld)
    (hd : detached sid w) : detached sid (removeComponent e t w).1 := by
  unfold removeComponent
  cases hg : jget w.entities e with
  | none =>
      simp only [hg]
      exact detached_checkEntity sid e w hd
  | some cc =>
      simp only [hg]
      exact detached_checkEntity sid e _ ⟨hd.1, hd.2⟩

/-- A detached system is refused by `addSystem`: its cleared `types` set
makes it an empty-requirement registration, so the call does nothing. -/
theorem addSystem_of_detached (sid : Nat) (w : LWorld)
    (hd : detached sid w) : addSystem sid w = w := by
  unfold addSystem
  rw [hd.1]
  rfl

theorem detached_addSystem (sid sid2 : Nat) (w : LWorld)
    (hd : detached sid w) : detached sid (addSystem sid2 w) := by
  by_cases hs : sid2 = sid
  · subst hs
    rw [addSystem_of_detached sid2 w hd]
    exact hd
  · unfold addSystem
    split
    · exact hd
    · split
      · exact hd
      · apply detached_seedFold sid sid2 _ _ hs
        refine ⟨hd.1, ?_⟩
        rw [mem_sAdd]
        rintro (hm | hm)
        · exact hd.2 hm
        · exact hs hm.symm

theorem removeSystem_queries (sid : Nat) (w : LWorld) :
    (removeSystem sid w).queries =
      jupdate w.queries sid (fun _ => { types := [], entities := [] }) := rfl

theorem removeSystem_systems (sid : Nat) (w : LWorld) :
    (removeSystem sid w).systems = sDel w.systems sid := rfl

theorem detached_removeSystem (sid sid2 : Nat) (w : LWorld)
    (hd : detached sid w) : detached sid (removeSystem sid2 w) := by
  by_cases hs : sid2 = sid
  · subst hs
    refine ⟨?_, ?_⟩
    · rw [removeSystem_queries, jget_jupdate_self, hd.1]
      rfl
    · rw [removeSystem_systems, mem_sDel]
      rintro ⟨_, hne⟩
      exact hne rfl
  · refine ⟨?_, ?_⟩
    · rw [removeSystem_queries, jget_jupdate_ne _ _ _ _ (Ne.symm hs)]
      exact hd.1
    · rw [removeSystem_systems, mem_sDel]
      rintro ⟨hm, _⟩
      exact hd.2 hm

theorem detached_destroyEntity (sid e : Nat) (w : LWorld)
    (hd : detached sid w) : detached sid (destroyEntity e w) := by
  refine ⟨?_, hd.2⟩
  show jget (w.systems.foldl _ w.queries) sid = _
  have hgen : ∀ (ks : List Nat) (qs : List (Nat × EntityQuery)),
      sid ∉ ks →
      jget (ks.foldl (fun qs2 sid2 => jupdate qs2 sid2
        (fun q => { q with entities := jdelete q.entities e })) qs) sid =
        jget qs sid := by
    intro ks
    induction ks with
    | nil => intro qs _; rfl
    | cons s2 rest ih =>
        intro qs hmem
        simp only [List.mem_cons] at hmem
        push_neg at hmem
        rw [List.foldl_cons, ih _ hmem.2]
        exact jget_jupdate_ne _ _ _ _ hmem.1
  rw [hgen w.systems w.queries hd.2]
  exact hd.1

theorem detached_runLCmd (sid : Nat) (c : LCmd) (w : LWorld)
    (hd : detached sid w) : detached sid (runLCmd c w) := by
  cases c with
  | addEntity => exact ⟨hd.1, hd.2⟩
  | removeEntity e => exact ⟨hd.1, hd.2⟩
  | addComponent e c => exact detached_addComponent sid e c w hd
  | removeComponent e t => exact detached_removeComponent sid e t w hd
  | addSystem sid2 => exact detached_addSystem sid sid2 w hd
  | removeSystem sid2 => exact detached_removeSystem sid sid2 w hd
  | destroyEntity e => exact detached_destroyEntity sid e w hd

theorem detached_runLCmds (sid : Nat) (cs : List LCmd) (w : LWorld)
    (hd : detached sid w) : detached sid (runLCmds cs w) := by
  induction cs generalizing w with
  | nil => exact hd
  | cons c rest ih => exact ih _ (detached_runLCmd sid c w hd)

/-- `removeSystem` leaves the removed system detached. -/
theorem removeSystem_detached (sid : Nat) (q : EntityQuery) (w : LWorld)
    (hq : jget w.queries sid = some q) :
    detached sid (removeSystem sid w) := by
  refine ⟨?_, ?_⟩
  · rw [removeSystem_queries, jget_jupdate_self, hq]
    rfl
  · rw [removeSystem_systems, mem_sDel]
    rintro ⟨_, hne⟩
    exact hne rfl

end LWorld

/-! ## The example `RectangleMover` system (src/game/Rectangles.ts)

One loop-body step of `RectangleMover.update` for a single matched entity,
over exact rationals.  The source first advances the position by
`velocity * delta`, then flips each velocity component whose (already
moved) position breached the corresponding canvas bound while moving
toward it; the position itself is not clamped. -/

structure MoverState where
  tx : Rat
  ty : Rat
  width : Rat
  height : Rat
  vx : Rat
  vy : Rat
deriving DecidableEq

def moverStep (boundX boundY delta : Rat) (r : MoverState) : MoverState :=
  let tx := r.tx + r.vx * delta
  let ty := r.ty + r.vy * delta
  let vx :=
    if (tx ≤ 0 ∧ r.vx < 0) ∨ (tx + r.width ≥ boundX ∧ r.vx > 0) then
      r.vx * (-1)
    else r.vx
  let vy :=
    if (ty ≤ 0 ∧ r.vy < 0) ∨ (ty + r.height ≥ boundY ∧ r.vy > 0) then
      r.vy * (-1)
    else r.vy
  { r with tx := tx, ty := ty, vx := vx, vy := vy }

theorem moverStep_tx (bX bY delta : Rat) (r : MoverState) :
    (moverStep bX bY delta r).tx = r.tx + r.vx * delta := rfl

theorem moverStep_vx (bX bY delta : Rat) (r : MoverState) :
    (moverStep bX bY delta r).vx =
      if (r.tx + r.vx * delta ≤ 0 ∧ r.vx < 0) ∨
          (r.tx + r.vx * delta + r.width ≥ bX ∧ r.vx > 0) then
        r.vx * (-1)
      else r.vx := rfl

/-! # The claims -/

/-- Claim C1 (query correctness invariant).  Starting from a fresh world,
after any sequence of public API operations — in particular any sequence of
addEntity / addComponent / removeComponent / addSystem — every entity
present in the entity store is a key of a registered system's result set
exactly when its component container holds all of that system's required
component classes.  This holds at every point between ticks, not only right
after registration. -/
theorem c1_query_invariant (cs : List Cmd) (p : System × List Nat) (e : Nat)
    (cc : CContainer)
    (hp : p ∈ (runCmds cs World.init).systems)
    (hcc : World.getComponents (runCmds cs World.init) e = some cc) :
    (e ∈ p.2 ↔ CContainer.hasAll cc p.1.componentsRequired = true) := by
  have hW := World.WInv_runCmds cs World.init World.WInv_init
  have hmem := hW.2.2.2.2 p hp e
  rw [hmem]
  unfold World.entityMatches
  unfold World.getComponents at hcc
  rw [hcc]

def c1cs : List Cmd :=
  [Cmd.addSystem { sid := 0, componentsRequired := [1, 2] },
   Cmd.addEntity,
   Cmd.addComponent 0 { ctorTag := 1, val := 10 },
   Cmd.addComponent 0 { ctorTag := 2, val := 20 }]

/-- Witness for C1 at a concrete run: one system requiring classes 1 and 2,
one entity that received both. -/
theorem c1_query_invariant_witness :
    (({ sid := 0, componentsRequired := [1, 2] } : System), ([0] : List Nat))
        ∈ (runCmds c1cs World.init).systems ∧
    World.getComponents (runCmds c1cs World.init) 0 =
      some [(1, { ctorTag := 1, val := 10 }),
            (2, { ctorTag := 2, val := 20 })] ∧
    ((0 : Nat) ∈ ([0] : List Nat) ↔
      CContainer.hasAll
        [(1, { ctorTag := 1, val := 10 }), (2, { ctorTag := 2, val := 20 })]
        [1, 2] = true) :=
  ⟨by decide, by decide,
   c1_query_invariant c1cs
     ({ sid := 0, componentsRequired := [1, 2] }, [0]) 0
     [(1, { ctorTag := 1, val := 10 }), (2, { ctorTag := 2, val := 20 })]
     (by decide) (by decide)⟩

/-- Claim C2 (deferred destruction).  `removeEntity` changes neither the
entity store nor any result set at call time; no public API call a system
can issue during the pass removes an entity from the store (removal happens
only in the drain after the pass); and every id pending destruction when
`tick` starts is absent from the entity store (`getComponents` is `none`)
and from every system's result set once `tick` returns. -/
theorem c2_deferred_destruction (w : World) (e : Nat)
    (upd : System → Int → World → List Cmd) (delta : Int)
    (hnd : (jkeys w.entities).Nodup) :
    ((World.removeEntity e w).entities = w.entities ∧
      (World.removeEntity e w).systems = w.systems) ∧
    (∀ cs : List Cmd, e ∈ jkeys w.entities →
      e ∈ jkeys (runCmds cs w).entities) ∧
    (e ∈ w.entitiesToDestroy →
      World.getComponents (World.tick upd delta w) e = none ∧
      ∀ p ∈ (World.tick upd delta w).systems, e ∉ p.2) := by
  refine ⟨⟨rfl, rfl⟩, ?_, ?_⟩
  · intro cs hm
    exact World.runCmds_entities_key_mono cs w e hm
  · intro hm
    have hnd2 := World.sysPass_nodup_entities upd delta (jkeys w.systems) w hnd
    have hmem2 := World.sysPass_etd_mono upd delta (jkeys w.systems) w e hm
    exact World.drainIter_absent _ _ e hnd2 (le_refl _) hmem2

def c2w : World :=
  { entities := [(0, [(1, { ctorTag := 1, val := 5 })])],
    systems := [({ sid := 0, componentsRequired := [1] }, [0])],
    nextEntityID := 1, entitiesToDestroy := [0] }

def c2upd : System → Int → World → List Cmd := fun _ _ _ => []

/-- Witness for C2: entity 0 is pending destruction, and after `tick` it has
vanished from the store while an unrelated command leaves it present. -/
theorem c2_deferred_destruction_witness :
    (jkeys c2w.entities).Nodup ∧ 0 ∈ c2w.entitiesToDestroy ∧
    World.getComponents (World.tick c2upd 0 c2w) 0 = none ∧
    0 ∈ jkeys (runCmds [Cmd.addEntity] c2w).entities :=
  ⟨by decide, by decide,
   ((c2_deferred_destruction c2w 0 c2upd 0 (by decide)).2.2 (by decide)).1,
   (c2_deferred_destruction c2w 0 c2upd 0 (by decide)).2.1
     [Cmd.addEntity] (by decide)⟩

/-- Claim C3 (empty-requirement rejection — evidence of the divergence).
`addSystem` on a system with an empty required set leaves the world
completely unchanged (the system is never scheduled and no result set is
created), and the only diagnostic emitted is the printed console warning:
the method returns nothing and mutates nothing, so no test-assertable
signal reaches the caller, contrary to the claim's second half. -/
theorem c3_empty_requirement_refusal (s : System) (w : World)
    (h : s.componentsRequired = []) :
    World.addSystemLogged s w = (w, [World.emptyComponentsWarning]) ∧
    World.addSystem s w = w := by
  constructor
  · simp [World.addSystemLogged, World.addSystem, h]
  · simp [World.addSystem, h]

/-- Witness for C3: the refused registration at a concrete world. -/
theorem c3_empty_requirement_refusal_witness :
    World.addSystemLogged { sid := 7, componentsRequired := [] } World.init =
      (World.init, [World.emptyComponentsWarning]) ∧
    World.addSystem { sid := 7, componentsRequired := [] } World.init =
      World.init :=
  c3_empty_requirement_refusal { sid := 7, componentsRequired := [] }
    World.init rfl

/-- Claim C4 (mid-tick visibility).  If the earlier-registered system s1,
during its update in a tick, ends by adding a component to entity e, and in
the resulting world e's container holds all of s2's required classes, then
e is already in s2's result set in exactly the world state at which `tick`
invokes s2's update (result-set maintenance is synchronous inside
`addComponent`), while destruction stays deferred to the drain after the
pass. -/
theorem c4_mid_tick_visibility (w w1 : World)
    (upd : System → Int → World → List Cmd) (delta : Int)
    (s1 s2 : System) (e : Nat) (c : Component) (cs : List Cmd)
    (es2 : List Nat)
    (hks : jkeys w.systems = [s1, s2])
    (hne : s1 ≠ s2)
    (hupd : upd s1 delta w = cs ++ [Cmd.addComponent e c])
    (hw1 : w1 = runCmds (upd s1 delta w) w)
    (hmatch : World.entityMatches w1.entities e s2 = true)
    (hes : jget w1.systems s2 = some es2) :
    e ∈ es2 ∧
      World.tick upd delta w =
        World.drainDestroy (runCmds (upd s2 delta w1) w1) := by
  have hnd : (jkeys w.systems).Nodup := by
    rw [hks]
    simp [hne]
  have hw1b : w1 = World.addComponent e c (runCmds cs w) := by
    rw [hw1, hupd, World.runCmds_append]
    rfl
  constructor
  · rw [hw1b] at hes hmatch
    have hndm : (jkeys (runCmds cs w).systems).Nodup :=
      World.runCmds_nodup_systems cs w hnd
    exact (World.addComponent_result_mem e c (runCmds cs w) hndm s2 es2
      hes).mpr hmatch
  · unfold World.tick World.sysPass
    rw [hks]
    simp only [List.foldl_cons, List.foldl_nil]
    rw [← hw1]

def c4s1 : System := { sid := 1, componentsRequired := [7] }
def c4s2 : System := { sid := 2, componentsRequired := [5] }

def c4w : World :=
  { entities := [(0, CContainer.empty)],
    systems := [(c4s1, []), (c4s2, [])],
    nextEntityID := 1, entitiesToDestroy := [] }

def c4upd : System → Int → World → List Cmd :=
  fun s _ _ =>
    if s.sid = 1 then [Cmd.addComponent 0 { ctorTag := 5, val := 42 }]
    else []

def c4w1 : World := runCmds (c4upd c4s1 0 c4w) c4w

/-- Witness for C4: s1 adds the class-5 component that makes entity 0 match
s2; 0 is in s2's result set at the state where s2 runs. -/
theorem c4_mid_tick_visibility_witness :
    jkeys c4w.systems = [c4s1, c4s2] ∧
    c4upd c4s1 0 c4w = [] ++ [Cmd.addComponent 0 { ctorTag := 5, val := 42 }] ∧
    World.entityMatches c4w1.entities 0 c4s2 = true ∧
    jget c4w1.systems c4s2 = some [0] ∧
    ((0 : Nat) ∈ ([0] : List Nat) ∧
      World.tick c4upd 0 c4w =
        World.drainDestroy (runCmds (c4upd c4s2 0 c4w1) c4w1)) :=
  ⟨by decide, by decide, by decide, by decide,
   c4_mid_tick_visibility c4w c4w1 c4upd 0 c4s1 c4s2 0
     { ctorTag := 5, val := 42 } [] [0]
     (by decide) (by decide) (by decide) rfl (by decide) (by decide)⟩

/-- Claim C5 counterexample: rectangle at x = 0 with x-velocity −1, delta 1,
canvas 10×10.  One `RectangleMover` step flips the velocity sign as claimed,
but the x-position becomes −1, i.e. it does move below 0 — the code updates
the position before the bounce test and never clamps it. -/
theorem c5_bounce_counterexample :
    (moverStep 10 10 1
        { tx := 0, ty := 0, width := 1, height := 1, vx := -1, vy := 0 }).vx
      = 1 ∧
    (moverStep 10 10 1
        { tx := 0, ty := 0, width := 1, height := 1, vx := -1, vy := 0 }).tx
      < 0 := by
  constructor
  · rw [moverStep_vx]
    norm_num
  · rw [moverStep_tx]
    norm_num

/-- Claim C5 as amended: with positive delta, position 0 and negative
x-velocity, one step flips the sign of the x-velocity; the x-position
becomes `vx * delta`, which is strictly below 0 (no clamping). -/
theorem c5_bounce_amended (bX bY delta : Rat) (r : MoverState)
    (hd : 0 < delta) (ht : r.tx = 0) (hv : r.vx < 0) :
    (moverStep bX bY delta r).vx = -r.vx ∧
    (moverStep bX bY delta r).tx = r.vx * delta ∧
    (moverStep bX bY delta r).tx < 0 := by
  have hneg : r.vx * delta < 0 := mul_neg_of_neg_of_pos hv hd
  have htx : (moverStep bX bY delta r).tx = r.vx * delta := by
    rw [moverStep_tx, ht, zero_add]
  refine ⟨?_, htx, by rw [htx]; exact hneg⟩
  rw [moverStep_vx, if_pos]
  · ring
  · left
    exact ⟨by rw [ht, zero_add]; exact le_of_lt hneg, hv⟩

/-- Witness for the amended C5 at the counterexample's concrete input. -/
theorem c5_bounce_amended_witness :
    (0 : Rat) < 1 ∧
    ({ tx := 0, ty := 0, width := 1, height := 1, vx := -1, vy := 0 }
      : MoverState).tx = 0 ∧
    ({ tx := 0, ty := 0, width := 1, height := 1, vx := -1, vy := 0 }
      : MoverState).vx < 0 ∧
    ((moverStep 10 10 1
        { tx := 0, ty := 0, width := 1, height := 1, vx := -1, vy := 0 }).vx
          = -(-1) ∧
     (moverStep 10 10 1
        { tx := 0, ty := 0, width := 1, height := 1, vx := -1, vy := 0 }).tx
          = -1 * 1 ∧
     (moverStep 10 10 1
        { tx := 0, ty := 0, width := 1, height := 1, vx := -1, vy := 0 }).tx
          < 0) :=
  ⟨by norm_num, rfl, by norm_num,
   c5_bounce_amended 10 10 1
     { tx := 0, ty := 0, width := 1, height := 1, vx := -1, vy := 0 }
     (by norm_num) rfl (by norm_num)⟩

/-- Claim C6 (overwrite semantics).  Adding instance `a` of class `t` and
then instance `b` of the same class leaves exactly `b` retrievable for `t`;
the total functions raise nothing, and the container keeps a single entry
for the class: its key list stays duplicate-free and `t` occurs exactly
once. -/
theorem c6_overwrite_semantics (cc : CContainer) (a b : Component) (t : Nat)
    (ha : a.ctorTag = t) (hb : b.ctorTag = t)
    (hnd : (jkeys cc).Nodup) :
    CContainer.get (CContainer.add (CContainer.add cc a) b) t = some b ∧
    (jkeys (CContainer.add (CContainer.add cc a) b)).Nodup ∧
    (jkeys (CContainer.add (CContainer.add cc a) b)).count t = 1 := by
  have hnd1 := CContainer.nodup_jkeys_add cc a hnd
  refine ⟨?_, CContainer.nodup_jkeys_add _ b hnd1, ?_⟩
  · rw [← hb]
    exact CContainer.get_add_self _ b
  · rw [← hb]
    exact CContainer.count_jkeys_add _ b hnd1

/-- Witness for C6: overwriting class 3 on an empty container. -/
theorem c6_overwrite_semantics_witness :
    CContainer.get
        (CContainer.add (CContainer.add CContainer.empty
          { ctorTag := 3, val := 1 }) { ctorTag := 3, val := 2 }) 3 =
      some { ctorTag := 3, val := 2 } ∧
    (jkeys (CContainer.add (CContainer.add CContainer.empty
        { ctorTag := 3, val := 1 }) { ctorTag := 3, val := 2 })).Nodup ∧
    (jkeys (CContainer.add (CContainer.add CContainer.empty
        { ctorTag := 3, val := 1 }) { ctorTag := 3, val := 2 })).count 3 = 1 :=
  c6_overwrite_semantics CContainer.empty
    { ctorTag := 3, val := 1 } { ctorTag := 3, val := 2 } 3 rfl rfl
    (by decide)

/-- Claim C7 (bulk fetch).  `getAll` returns, when every requested class is
present, the list of the stored instances in the same order and length as
the request, and `none` (the single "not all present" failure) as soon as
one class is absent; being a pure function of the container it leaves the
container unchanged. -/
theorem c7_getAll_spec (cc : CContainer) (ts : List Nat) :
    CContainer.getAll cc ts =
      if CContainer.hasAll cc ts = true then
        some (ts.map (fun t =>
          (CContainer.get cc t).getD { ctorTag := 0, val := 0 }))
      else none := by
  induction ts with
  | nil => simp [CContainer.hasAll]
  | cons t rest ih =>
      cases hg : jget cc t with
      | none =>
          have hh : CContainer.hasAll cc (t :: rest) = false := by
            simp [CContainer.hasAll, CContainer.has, hg]
          rw [hh]
          simp only [CContainer.getAll, hg]
          simp
      | some c =>
          have hcons : CContainer.hasAll cc (t :: rest) =
              CContainer.hasAll cc rest := by
            simp [CContainer.hasAll, CContainer.has, hg]
          rw [hcons]
          by_cases hall : CContainer.hasAll cc rest = true
          · have hrest := ih
            rw [if_pos hall] at hrest
            simp only [CContainer.getAll, hg, hrest, List.map_cons]
            rw [if_pos hall]
            simp [CContainer.get, hg]
          · have hrest := ih
            rw [if_neg hall] at hrest
            simp only [CContainer.getAll, hg, hrest]
            rw [if_neg hall]

/-- Claim C8 (operations on a non-existent entity).  In any well-formed
world (all reachable worlds are), if an id is absent from the entity store
then `addComponent` returns leaving the whole world unchanged — no entity is
created, no result set moves — and `removeComponent` additionally reports
`false`. -/
theorem c8_nonexistent_entity_noop (w : World) (e : Nat) (c : Component)
    (t : Nat) (hW : World.WInv w)
    (habs : World.getComponents w e = none) :
    World.addComponent e c w = w ∧
    World.removeComponent e t w = (w, false) := by
  have hjget : jget w.entities e = none := habs
  have hsets : ∀ p ∈ w.systems, e ∉ p.2 := by
    intro p hp hmem
    have hmatch := (hW.2.2.2.2 p hp e).mp hmem
    rw [World.entityMatches_of_none w.entities e p.1 hjget] at hmatch
    exact Bool.noConfusion hmatch
  have hnoop := World.checkEntity_noop e w hW.2.1 hjget hsets
  constructor
  · unfold World.addComponent
    simp only [hjget]
    exact hnoop
  · unfold World.removeComponent
    simp only [hjget]
    rw [hnoop]

/-- Witness for C8 on the fresh world and the never-created id 0. -/
theorem c8_nonexistent_entity_noop_witness :
    World.getComponents World.init 0 = none ∧
    World.addComponent 0 { ctorTag := 1, val := 1 } World.init = World.init ∧
    World.removeComponent 0 1 World.init = (World.init, false) :=
  ⟨rfl,
   (c8_nonexistent_entity_noop World.init 0 { ctorTag := 1, val := 1 } 1
     World.WInv_init rfl).1,
   (c8_nonexistent_entity_noop World.init 0 { ctorTag := 1, val := 1 } 1
     World.WInv_init rfl).2⟩

/-- Claim C9 (live-query variant: removal is permanent).  `removeSystem`
clears the system object's own query in place — afterwards its `types` and
`entities` are both empty — and deregisters it; a subsequent `addSystem` of
the same object is refused as an empty-requirement registration (the call
does nothing), and no sequence of further operations can ever re-register
it or refill its `types`. -/
theorem c9_remove_system_permanent (w : LWorld) (sid : Nat) (q : EntityQuery)
    (hq : jget w.queries sid = some q) :
    jget (LWorld.removeSystem sid w).queries sid =
      some { types := [], entities := [] } ∧
    sid ∉ (LWorld.removeSystem sid w).systems ∧
    LWorld.addSystem sid (LWorld.removeSystem sid w) =
      LWorld.removeSystem sid w ∧
    ∀ cs : List LCmd,
      sid ∉ (runLCmds cs (LWorld.removeSystem sid w)).systems ∧
      jget (runLCmds cs (LWorld.removeSystem sid w)).queries sid =
        some { types := [], entities := [] } := by
  have hd := LWorld.removeSystem_detached sid q w hq
  refine ⟨hd.1, hd.2, LWorld.addSystem_of_detached sid _ hd, ?_⟩
  intro cs
  have hd2 := LWorld.detached_runLCmds sid cs _ hd
  exact ⟨hd2.2, hd2.1⟩

def c9w : LWorld :=
  { entities := [(0, [(3, { ctorTag := 3, val := 9 })])],
    systems := [4],
    queries := [(4, { types := [3],
                      entities := [(0, [{ ctorTag := 3, val := 9 }])] })],
    nextEntityID := 1, entitiesToDestroy := [] }

/-- Witness for C9: removing registered system 4 empties its query and a
later `addSystem 4` is a no-op. -/
theorem c9_remove_system_permanent_witness :
    jget c9w.queries 4 =
      some { types := [3], entities := [(0, [{ ctorTag := 3, val := 9 }])] } ∧
    jget (LWorld.removeSystem 4 c9w).queries 4 =
      some { types := [], entities := [] } ∧
    4 ∉ (LWorld.removeSystem 4 c9w).systems ∧
    LWorld.addSystem 4 (LWorld.removeSystem 4 c9w) =
      LWorld.removeSystem 4 c9w ∧
    4 ∉ (runLCmds [LCmd.addSystem 4] (LWorld.removeSystem 4 c9w)).systems :=
  ⟨by decide,
   (c9_remove_system_permanent c9w 4
     { types := [3], entities := [(0, [{ ctorTag := 3, val := 9 }])] }
     (by decide)).1,
   (c9_remove_system_permanent c9w 4
     { types := [3], entities := [(0, [{ ctorTag := 3, val := 9 }])] }
     (by decide)).2.1,
   (c9_remove_system_permanent c9w 4
     { types := [3], entities := [(0, [{ ctorTag := 3, val := 9 }])] }
     (by decide)).2.2.1,
   ((c9_remove_system_permanent c9w 4
     { types := [3], entities := [(0, [{ ctorTag := 3, val := 9 }])] }
     (by decide)).2.2.2 [LCmd.addSystem 4]).1⟩

/-- Claim C10 (drain termination).  `destroyEntity` never appends to the
pending list; each loop iteration on a non-empty list pops exactly one id;
running the drain for the list's initial length always empties it (so the
`while` loop terminates after at most that many iterations); and destroying
an id that is in neither the store nor any result set is a complete no-op. -/
theorem c10_drain_termination (w : World) (e : Nat) :
    ((World.destroyEntity e w).entitiesToDestroy = w.entitiesToDestroy) ∧
    (w.entitiesToDestroy ≠ [] →
      (World.drainStep w).entitiesToDestroy.length + 1 =
        w.entitiesToDestroy.length) ∧
    ((World.drainDestroy w).entitiesToDestroy = []) ∧
    (World.getComponents w e = none → (∀ p ∈ w.systems, e ∉ p.2) →
      World.destroyEntity e w = w) := by
  refine ⟨rfl, ?_, ?_, ?_⟩
  · intro h
    rw [World.drainStep_of_ne_nil w h]
    have hfld : (World.destroyEntity (w.entitiesToDestroy.getLastD 0)
        { w with entitiesToDestroy := w.entitiesToDestroy.dropLast
        }).entitiesToDestroy = w.entitiesToDestroy.dropLast := rfl
    rw [hfld, List.length_dropLast]
    have hpos : 0 < w.entitiesToDestroy.length := List.length_pos.mpr h
    omega
  · exact World.drainIter_empties _ w (le_refl _)
  · intro habs hsets
    apply World.eq_of_fields
    · exact jdelete_of_not_mem _ _ (not_mem_jkeys_of_jget_none _ _ habs)
    · have hpt : ∀ p ∈ w.systems, (fun p => (p.1, sDel p.2 e)) p = p := by
        intro p hp
        simp only
        rw [sDel_of_not_mem _ _ (hsets p hp)]
      show w.systems.map (fun p => (p.1, sDel p.2 e)) = w.systems
      rw [List.map_congr_left hpt]
      exact List.map_id _
    · rfl
    · rfl

def c10w : World :=
  { entities := [(0, [(1, { ctorTag := 1, val := 5 })])],
    systems := [({ sid := 0, componentsRequired := [1] }, [0])],
    nextEntityID := 1, entitiesToDestroy := [0, 99, 0] }

/-- Witness for C10 on a pending list with a duplicate and a never-created
id: the drain empties it, and destroying the absent id 5 is a no-op. -/
theorem c10_drain_termination_witness :
    c10w.entitiesToDestroy ≠ [] ∧
    (World.drainStep c10w).entitiesToDestroy.length + 1 =
      c10w.entitiesToDestroy.length ∧
    (World.drainDestroy c10w).entitiesToDestroy = [] ∧
    World.getComponents c10w 5 = none ∧
    World.destroyEntity 5 c10w = c10w :=
  ⟨by decide,
   (c10_drain_termination c10w 5).2.1 (by decide),
   (c10_drain_termination c10w 5).2.2.1,
   by decide,
   (c10_drain_termination c10w 5).2.2.2 (by decide) (by decide)⟩

end ECSProof
